import Mathlib

/-!
# audiohelper: path-derived tag resolution and the recursive tag walk

A shallow embedding of `cmd/tag.go` (the `list-tags` and `set-tags` commands).

* Go strings are embedded as Lean `String`s (sequences of Unicode code points); the
  library functions used by the source (`strings.Split`, `strings.HasSuffix`,
  `strings.TrimRight`, `filepath.Base`, `filepath.Ext`) are embedded on the character
  list of a string, following their documented behaviour on a Unix system.
* `int64` values are `Int`s; the conversion and the addition performed by `getPathItem`
  are wrapped explicitly into the 64-bit two's complement range.
* A slice access that would panic is the result `none`.
* The file system and the tag library are an explicit tree of entries whose nodes carry
  the outcome of each I/O operation; the walk returns the trace of the operations it
  performs together with its outcome.
-/

namespace AudioHelper

/-! ## Strings and paths -/

/-- Go `strings.HasSuffix(s, suffix)`. -/
def stringsHasSuffix (s suffix : String) : Bool :=
  suffix.data.isSuffixOf s.data

/-- The pieces of a character list between the occurrences of `sep`. -/
def splitChars (sep : Char) : List Char → List (List Char)
  | [] => [[]]
  | c :: cs =>
    if c = sep then [] :: splitChars sep cs
    else
      match splitChars sep cs with
      | [] => [[c]]
      | w :: ws => (c :: w) :: ws

/-- Go `strings.Split(s, sep)` for a separator of one character (the source splits on
`"/"`): the substrings between the separators, `[""]` for the empty string. -/
def stringsSplit (s : String) (sep : Char) : List String :=
  (splitChars sep s.data).map String.mk

/-- Go `strings.TrimRight(s, cutset)`: `s` without its trailing code points that occur
in `cutset` (the second argument is a set of characters, not a suffix). -/
def stringsTrimRight (s cutset : String) : String :=
  String.mk (s.data.reverse.dropWhile (fun c => cutset.data.contains c)).reverse

/-- Go `filepath.Base(path)` on Unix: the last element of the path, after removing
trailing separators; `"."` for the empty path, `"/"` for a path of separators only. -/
def filepathBase (path : String) : String :=
  if path = "" then "."
  else
    let stripped := path.data.reverse.dropWhile (fun c => c = '/')
    let last := (stripped.takeWhile (fun c => c ≠ '/')).reverse
    if last = [] then "/" else String.mk last

/-- Go `filepath.Ext(path)` on Unix: the suffix beginning at the final dot in the final
element of the path, empty if there is no dot. -/
def filepathExt (path : String) : String :=
  let r := path.data.reverse
  let tail := r.takeWhile (fun c => c ≠ '.' ∧ c ≠ '/')
  match r.drop tail.length with
  | '.' :: _ => String.mk ('.' :: tail.reverse)
  | _ => ""

/-! ## 64-bit integers -/

/-- The value of an integer expression after it is stored in an `int64`. -/
def wrapInt64 (x : Int) : Int :=
  (x + 9223372036854775808) % 18446744073709551616 - 9223372036854775808

/-- The values an `int64` can hold. -/
def isInt64 (x : Int) : Prop :=
  -9223372036854775808 ≤ x ∧ x < 9223372036854775808

instance (x : Int) : Decidable (isInt64 x) := by
  unfold isInt64; exact inferInstance

/-! ## `getPathItem` -/

/-- The index `int64(len(pathItems)) + itemIndex` computed on the negative branch of
`getPathItem`. -/
def pathItemIndex (pathItems : List String) (itemIndex : Int) : Int :=
  wrapInt64 (wrapInt64 (pathItems.length : Int) + itemIndex)

/-- The function `getPathItem` of `cmd/tag.go`; `none` is the run-time panic of an
out-of-range slice access. -/
def getPathItem (pathItems : List String) (itemIndex : Int) (defaultValue : String) :
    Option String :=
  if defaultValue ≠ "" then some defaultValue
  else if itemIndex < 0 then
    let index := pathItemIndex pathItems itemIndex
    if index ≥ 0 then pathItems[index.toNat]?
    else some ""
  else some ""

/-! ## Title derivation -/

/-- The title computed by `setTagsAt` for the file name `name`:
`strings.TrimRight(filepath.Base(name), filepath.Ext(name))`. -/
def deriveTitle (name : String) : String :=
  stringsTrimRight (filepathBase name) (filepathExt name)

/-- The path elements kept by `filepath.Clean`: empty elements and `.` are dropped, a
`..` removes the element before it, or is kept at the front of a path that is not
rooted. `out` is the stack of the elements kept so far. -/
def cleanElems (rooted : Bool) : List (List Char) → List (List Char) → List (List Char)
  | out, [] => out.reverse
  | out, e :: es =>
    if e = [] ∨ e = ['.'] then cleanElems rooted out es
    else if e = ['.', '.'] then
      match out with
      | o :: os =>
        if o = ['.', '.'] then cleanElems rooted (e :: out) es
        else cleanElems rooted os es
      | [] => if rooted then cleanElems rooted [] es else cleanElems rooted [e] es
    else cleanElems rooted (e :: out) es

/-- Go `filepath.Clean(path)` on Unix. -/
def filepathClean (path : String) : String :=
  if path = "" then "."
  else
    let rooted : Bool := path.data.head? = some '/'
    let body :=
      String.mk (List.intercalate ['/'] (cleanElems rooted [] (splitChars '/' path.data)))
    if rooted then "/" ++ body
    else if body = "" then "." else body

/-- Go `filepath.Join(a, b)` on Unix: the non-empty arguments joined with the separator,
then cleaned. -/
def filepathJoin (a b : String) : String :=
  if a ≠ "" then filepathClean (a ++ "/" ++ b)
  else if b ≠ "" then filepathClean b
  else ""

/-! ## Tags, configuration and the file tree -/

/-- A Go `error` value, identified by its message. -/
abbrev GoError := String

/-- The four text frames of an opened `id3v2.Tag` that the commands read and write. -/
structure Tag where
  title : String
  album : String
  artist : String
  year : String
deriving DecidableEq

/-- The flags of `set-tags` read from the `cli.Context` at the top of `setTagsAt`. -/
structure Config where
  album : String
  year : String
  artist : String
  albumIndex : Int
  yearIndex : Int
  artistIndex : Int

/-- The three index flags are `int64` values, as `c.Int64` returns them. -/
def Config.inRange (cfg : Config) : Prop :=
  isInt64 cfg.albumIndex ∧ isInt64 cfg.yearIndex ∧ isInt64 cfg.artistIndex

instance (cfg : Config) : Decidable cfg.inRange := by
  unfold Config.inRange; exact inferInstance

mutual
/-- What `ioutil.ReadDir` finds at a directory: the error it returns, if any, and the
entries of the directory in the order of the listing. -/
inductive Dir where
  | mk (listErr : Option GoError) (list : List Entry)
/-- A directory entry: a regular file, with the error `id3v2.Open` returns for it (if
any), the tag stored in it and the error `tag.Save` returns (if any); or a directory. -/
inductive Entry where
  | file (name : String) (openErr : Option GoError) (tag : Tag) (saveErr : Option GoError)
  | dir (name : String) (d : Dir)
end

/-- The operations a walk performs, in the order it performs them. -/
inductive Event where
  | readDir (dirPath : String)
  | logListFailed (err : GoError)
  | logFindItem (name : String)
  | openTag (itemPath : String)
  | logOpenFailed (itemPath : String) (err : GoError)
  | print (record : String)
  | save (itemPath : String) (tag : Tag)
  | logSaveFailed (title album artist year itemPath : String) (err : GoError)
  | close (itemPath : String)
deriving DecidableEq

/-- How a call ends: `return nil`, `return err`, or a run-time panic. -/
inductive Outcome where
  | ok
  | error (err : GoError)
  | panic
deriving DecidableEq

/-! ## Set mode -/

/-- The values computed for one file by `setTagsAt`, and the tag after the setters. -/
structure FileTags where
  tag : Tag
  title : String
  itemAlbum : String
  itemArtist : String
  itemYear : String
deriving DecidableEq

/-- Lines 136-150 of `setTagsAt`: the title is set, the three items are resolved from the
components of `dirPath`, and each non-empty item is set on the opened tag. -/
def setFileTags (cfg : Config) (dirPath name : String) (tag : Tag) : Option FileTags :=
  let title := deriveTitle name
  let tag := { tag with title := title }
  let parts := stringsSplit dirPath '/'
  match getPathItem parts cfg.albumIndex cfg.album with
  | none => none
  | some itemAlbum =>
    match getPathItem parts cfg.artistIndex cfg.artist with
    | none => none
    | some itemArtist =>
      match getPathItem parts cfg.yearIndex cfg.year with
      | none => none
      | some itemYear =>
        let tag := if itemAlbum ≠ "" then { tag with album := itemAlbum } else tag
        let tag := if itemArtist ≠ "" then { tag with artist := itemArtist } else tag
        let tag := if itemYear ≠ "" then { tag with year := itemYear } else tag
        some ⟨tag, title, itemAlbum, itemArtist, itemYear⟩

mutual
/-- The function `setTagsAt` of `cmd/tag.go`, on the directory `d` found at `dirPath`. -/
def setTagsAt (cfg : Config) (dirPath : String) (d : Dir) : List Event × Outcome :=
  match d with
  | .mk (some err) _ => ([.readDir dirPath, .logListFailed err], .error err)
  | .mk none list =>
    let r := setTagsLoop cfg dirPath list
    (.readDir dirPath :: r.1, r.2)
termination_by structural d
/-- The loop `for _, item := range list` of `setTagsAt`. -/
def setTagsLoop (cfg : Config) (dirPath : String) (list : List Entry) :
    List Event × Outcome :=
  match list with
  | [] => ([], .ok)
  | item :: rest =>
    let r := setTagsItem cfg dirPath item
    match r.2 with
    | .ok =>
      let r2 := setTagsLoop cfg dirPath rest
      (r.1 ++ r2.1, r2.2)
    | out => (r.1, out)
termination_by structural list
/-- One iteration of the loop of `setTagsAt`; the outcome `ok` continues with the next
item, any other outcome leaves the function. -/
def setTagsItem (cfg : Config) (dirPath : String) (item : Entry) : List Event × Outcome :=
  match item with
  | .dir name d =>
    let r := setTagsAt cfg (filepathJoin dirPath name) d
    (.logFindItem name :: r.1, r.2)
  | .file name openErr tag saveErr =>
    let itemPath := filepathJoin dirPath name
    if stringsHasSuffix name ".mp3" then
      match openErr with
      | some err =>
        ([.logFindItem name, .openTag itemPath, .logOpenFailed itemPath err], .error err)
      | none =>
        match setFileTags cfg dirPath name tag with
        | none => ([.logFindItem name, .openTag itemPath], .panic)
        | some f =>
          match saveErr with
          | some err =>
            ([.logFindItem name, .openTag itemPath, .save itemPath f.tag,
              .logSaveFailed f.title f.itemAlbum f.itemArtist f.itemYear itemPath err,
              .close itemPath], .ok)
          | none =>
            ([.logFindItem name, .openTag itemPath, .save itemPath f.tag,
              .close itemPath], .ok)
    else ([.logFindItem name], .ok)
termination_by structural item
end

/-! ## List mode -/

/-- The record printed by `listTagsAt` for one file. -/
def tagRecord (name : String) (tag : Tag) : String :=
  "item: " ++ name ++ "\nalbum: " ++ tag.album ++ "\nyear: " ++ tag.year ++
    "\nartist: " ++ tag.artist ++ "\ntitle: " ++ tag.title ++ "\n"

mutual
/-- The function `listTagsAt` of `cmd/tag.go`, on the directory `d` found at `dirPath`. -/
def listTagsAt (dirPath : String) (d : Dir) : List Event × Outcome :=
  match d with
  | .mk (some err) _ => ([.readDir dirPath, .logListFailed err], .error err)
  | .mk none list =>
    let r := listTagsLoop dirPath list
    (.readDir dirPath :: r.1, r.2)
termination_by structural d
/-- The loop `for _, item := range list` of `listTagsAt`. -/
def listTagsLoop (dirPath : String) (list : List Entry) : List Event × Outcome :=
  match list with
  | [] => ([], .ok)
  | item :: rest =>
    let r := listTagsItem dirPath item
    match r.2 with
    | .ok =>
      let r2 := listTagsLoop dirPath rest
      (r.1 ++ r2.1, r2.2)
    | out => (r.1, out)
termination_by structural list
/-- One iteration of the loop of `listTagsAt`. -/
def listTagsItem (dirPath : String) (item : Entry) : List Event × Outcome :=
  match item with
  | .dir name d =>
    let r := listTagsAt (filepathJoin dirPath name) d
    (.logFindItem name :: r.1, r.2)
  | .file name openErr tag _ =>
    let itemPath := filepathJoin dirPath name
    if stringsHasSuffix name ".mp3" then
      match openErr with
      | some err =>
        ([.logFindItem name, .openTag itemPath, .logOpenFailed itemPath err], .error err)
      | none =>
        ([.logFindItem name, .openTag itemPath, .print (tagRecord name tag),
          .close itemPath], .ok)
    else ([.logFindItem name], .ok)
termination_by structural item
end

/-! ## Trees and traces: the notions the properties are stated with -/

mutual
/-- Every directory listing in the tree succeeds, and so does every open of a file whose
name ends in `.mp3` (no other file is ever opened). -/
def Dir.readable : Dir → Bool
  | .mk listErr list => listErr.isNone && Entry.allReadable list
/-- Every entry of a listing is readable. -/
def Entry.allReadable : List Entry → Bool
  | [] => true
  | e :: es => Entry.readable e && Entry.allReadable es
/-- The entry, and everything under it, is readable. -/
def Entry.readable : Entry → Bool
  | .file name openErr _ _ => !stringsHasSuffix name ".mp3" || openErr.isNone
  | .dir _ d => Dir.readable d
end

mutual
/-- The regular files directly or transitively under the directory found at `dirPath`,
each with its path and its name, in depth-first order. -/
def Dir.files (dirPath : String) : Dir → List (String × String)
  | .mk _ list => Entry.filesOfList dirPath list
/-- The regular files at or under the entries of a listing. -/
def Entry.filesOfList (dirPath : String) : List Entry → List (String × String)
  | [] => []
  | e :: es => Entry.files dirPath e ++ Entry.filesOfList dirPath es
/-- The regular files at or under an entry of the directory `dirPath`. -/
def Entry.files (dirPath : String) : Entry → List (String × String)
  | .file name _ _ _ => [(filepathJoin dirPath name, name)]
  | .dir name d => Dir.files (filepathJoin dirPath name) d
end

/-- The paths of the files whose name ends in `.mp3`. -/
def mp3Paths (files : List (String × String)) : List String :=
  (files.filter (fun f => stringsHasSuffix f.2 ".mp3")).map Prod.fst

mutual
/-- The same tree with every listing and every open succeeding. -/
def Dir.heal : Dir → Dir
  | .mk _ list => .mk none (Entry.healList list)
/-- The listing with every entry healed. -/
def Entry.healList : List Entry → List Entry
  | [] => []
  | e :: es => Entry.heal e :: Entry.healList es
/-- The same entry with every listing and every open at or under it succeeding. -/
def Entry.heal : Entry → Entry
  | .file name _ tag saveErr => .file name none tag saveErr
  | .dir name d => .dir name (Dir.heal d)
end

mutual
/-- The same tree with every save succeeding. -/
def Dir.savesOk : Dir → Dir
  | .mk listErr list => .mk listErr (Entry.savesOkList list)
/-- The listing with every save succeeding. -/
def Entry.savesOkList : List Entry → List Entry
  | [] => []
  | e :: es => Entry.savesOk e :: Entry.savesOkList es
/-- The same entry with every save at or under it succeeding. -/
def Entry.savesOk : Entry → Entry
  | .file name openErr tag _ => .file name openErr tag none
  | .dir name d => .dir name (Dir.savesOk d)
end

/-- The path of the file an event opens. -/
def Event.opened? : Event → Option String
  | .openTag itemPath => some itemPath
  | _ => none

/-- The path and the tag of the file an event saves. -/
def Event.saved? : Event → Option (String × Tag)
  | .save itemPath tag => some (itemPath, tag)
  | _ => none

/-- The event reports a failed save. -/
def Event.isSaveFailure : Event → Bool
  | .logSaveFailed _ _ _ _ _ _ => true
  | _ => false

/-- The files a walk opens, in order. -/
def openedFiles (trace : List Event) : List String :=
  trace.filterMap Event.opened?

/-- The files a walk saves, in order, each with the tag it writes. -/
def savedTags (trace : List Event) : List (String × Tag) :=
  trace.filterMap Event.saved?

/-- The operation `attempt` failed with `err`, which `report` logs: a directory listing
or an open of a tag. -/
def failurePair (err : GoError) (attempt report : Event) : Prop :=
  (∃ p, attempt = .readDir p ∧ report = .logListFailed err) ∨
  (∃ p, attempt = .openTag p ∧ report = .logOpenFailed p err)

/-- A walk with trace `trace` stopped at an operation that failed with `err`: the trace
ends with the failing operation and its report, and up to and including the failing
operation it is the beginning of the trace `full`. -/
def endsInFailure (err : GoError) (trace full : List Event) : Prop :=
  ∃ pre attempt report, failurePair err attempt report ∧
    trace = pre ++ [attempt, report] ∧ pre ++ [attempt] <+: full

/-! ## Example inputs -/

/-- A configuration that takes album, year and artist from the last three components. -/
def exampleConfig : Config := ⟨"", "", "", -1, -2, -3⟩

/-- A tag with all four frames set. -/
def exampleTag : Tag := ⟨"t", "al", "ar", "y"⟩

/-- A readable tree: two matching files at the top; a directory whose own name ends in
`.mp3`, holding a matching file whose save fails and a file that does not match. -/
def exampleTree : Dir :=
  .mk none
    [.file "a.mp3" none exampleTag none,
     .dir "live.mp3" (.mk none
       [.file "b.mp3" none exampleTag (some "disk full"),
        .file "c.txt" (some "no tag") exampleTag none]),
     .file "z.mp3" none exampleTag none]

/-- A tree with an unlistable directory followed by further entries. -/
def brokenTree : Dir :=
  .mk none
    [.file "a.mp3" none exampleTag none,
     .dir "sub" (.mk none
       [.dir "deep" (.mk (some "permission denied") [.file "x.mp3" none exampleTag none]),
        .file "b.mp3" none exampleTag none]),
     .file "z.mp3" none exampleTag none]

/-! ## `getPathItem`: resolution of one field -/

/-- An `int64` value is unchanged by being stored in an `int64`. -/
theorem wrapInt64_of_isInt64 (x : Int) (h : isInt64 x) : wrapInt64 x = x := by
  unfold isInt64 at h
  unfold wrapInt64
  omega

/-- With a slice length and an index that fit in an `int64`, the index computed by
`getPathItem` is the exact sum. -/
theorem pathItemIndex_exact (pathItems : List String) (itemIndex : Int)
    (hlen : (pathItems.length : Int) < 9223372036854775808) (hidx : isInt64 itemIndex)
    (hneg : itemIndex < 0) :
    pathItemIndex pathItems itemIndex = (pathItems.length : Int) + itemIndex := by
  unfold isInt64 at hidx
  unfold pathItemIndex wrapInt64
  omega

/-- The function `getPathItem` returns a value for every `int64` index. -/
theorem getPathItem_isSome (pathItems : List String) (itemIndex : Int)
    (defaultValue : String) (hidx : isInt64 itemIndex) :
    ∃ s, getPathItem pathItems itemIndex defaultValue = some s := by
  unfold getPathItem
  by_cases hd : defaultValue ≠ ""
  · exact ⟨defaultValue, by simp [hd]⟩
  · by_cases hneg : itemIndex < 0
    · by_cases hi : pathItemIndex pathItems itemIndex ≥ 0
      · have hlt : (pathItemIndex pathItems itemIndex).toNat < pathItems.length := by
          unfold pathItemIndex wrapInt64 at *
          unfold isInt64 at hidx
          omega
        exact ⟨pathItems[(pathItemIndex pathItems itemIndex).toNat], by
          simp only [hd, hneg, hi, if_true, if_false]
          exact List.getElem?_eq_getElem hlt⟩
      · exact ⟨"", by simp only [hd, hneg, hi, if_true, if_false]⟩
    · exact ⟨"", by simp only [hd, hneg, if_true, if_false]⟩

/-- C1. Override precedence: with a non-empty `defaultValue`, `getPathItem` returns
exactly `defaultValue`, for every list of components and every index. -/
theorem getPathItem_override (pathItems : List String) (itemIndex : Int)
    (defaultValue : String) (h : defaultValue ≠ "") :
    getPathItem pathItems itemIndex defaultValue = some defaultValue := by
  unfold getPathItem
  simp [h]

/-- Witness of C1: an override wins over a negative index that would select a
component. -/
theorem getPathItem_override_witness :
    getPathItem ["", "music", "Beatles"] (-1) "Help!" = some "Help!" :=
  getPathItem_override ["", "music", "Beatles"] (-1) "Help!" (by decide)

/-- C2. Negative-index resolution: with an empty override and `n` components, the index
`-k` (`k ≥ 1`, an `int64`) returns the component at position `n - k` when `k ≤ n` and
the empty string when `k > n`; `-1` selects the last component and `-2` the
second-to-last. -/
theorem getPathItem_negative (pathItems : List String) (k : Nat) (hk : 1 ≤ k)
    (hk64 : isInt64 (-(k : Int)))
    (hlen : (pathItems.length : Int) < 9223372036854775808) :
    (k ≤ pathItems.length →
      ∃ c, pathItems[pathItems.length - k]? = some c ∧
        getPathItem pathItems (-(k : Int)) "" = some c) ∧
    (pathItems.length < k → getPathItem pathItems (-(k : Int)) "" = some "") ∧
    (k = 1 → 1 ≤ pathItems.length →
      ∃ c, pathItems.getLast? = some c ∧ getPathItem pathItems (-1) "" = some c) ∧
    (k = 2 → 2 ≤ pathItems.length →
      ∃ c, pathItems[pathItems.length - 2]? = some c ∧
        getPathItem pathItems (-2) "" = some c) := by
  have hidx : pathItemIndex pathItems (-(k : Int)) = (pathItems.length : Int) - k := by
    rw [pathItemIndex_exact pathItems _ hlen hk64 (by omega)]
    omega
  have hle : k ≤ pathItems.length →
      ∃ c, pathItems[pathItems.length - k]? = some c ∧
        getPathItem pathItems (-(k : Int)) "" = some c := by
    intro hkn
    have hlt : pathItems.length - k < pathItems.length := by omega
    refine ⟨pathItems[pathItems.length - k], List.getElem?_eq_getElem hlt, ?_⟩
    have hneg : -(k : Int) < 0 := by omega
    have hnn : (pathItems.length : Int) - k ≥ 0 := by omega
    have htn : ((pathItems.length : Int) - k).toNat = pathItems.length - k := by omega
    unfold getPathItem
    simp only [ne_eq, not_true_eq_false, if_false, hneg, if_true, hidx, hnn, htn]
    exact List.getElem?_eq_getElem hlt
  refine ⟨hle, ?_, ?_, ?_⟩
  · intro hkn
    have hneg : -(k : Int) < 0 := by omega
    have hnn : ¬ ((pathItems.length : Int) - k ≥ 0) := by omega
    unfold getPathItem
    simp only [ne_eq, not_true_eq_false, if_false, hneg, if_true, hidx, hnn]
  · intro h1 hn
    subst h1
    obtain ⟨c, hc, hg⟩ := hle hn
    refine ⟨c, ?_, by simpa using hg⟩
    rw [List.getLast?_eq_getElem?]
    exact hc
  · intro h2 hn
    subst h2
    obtain ⟨c, hc, hg⟩ := hle hn
    exact ⟨c, hc, by simpa using hg⟩

/-- Witness of C2: index `-2` on five components selects position `3`. -/
theorem getPathItem_negative_witness :
    ∃ c, ["", "music", "Beatles", "1969", "Abbey Road"][5 - 2]? = some c ∧
      getPathItem ["", "music", "Beatles", "1969", "Abbey Road"] (-((2 : Nat) : Int)) ""
        = some c :=
  (getPathItem_negative ["", "music", "Beatles", "1969", "Abbey Road"] 2 (by decide)
    (by decide) (by decide)).1 (by decide)

/-- With an empty override, an index that is not negative resolves to the empty
string. -/
theorem getPathItem_empty_of_nonneg (pathItems : List String) (itemIndex : Int)
    (h : 0 ≤ itemIndex) : getPathItem pathItems itemIndex "" = some "" := by
  have hneg : ¬ itemIndex < 0 := by omega
  unfold getPathItem
  simp only [ne_eq, not_true_eq_false, if_false, hneg]

/-- C3. Non-negative indices never resolve: with an empty override and an index `≥ 0`,
`getPathItem` returns the empty string; and whenever `getPathItem` returns a non-empty
string, the override was non-empty or the index was negative. -/
theorem getPathItem_nonneg (pathItems : List String) (itemIndex : Int)
    (h : 0 ≤ itemIndex) :
    getPathItem pathItems itemIndex "" = some "" ∧
    ∀ (i : Int) (d s : String), getPathItem pathItems i d = some s → s ≠ "" →
      d ≠ "" ∨ i < 0 := by
  constructor
  · exact getPathItem_empty_of_nonneg pathItems itemIndex h
  · intro i d s hs hne
    by_cases hd : d = ""
    · right
      by_contra hi
      subst hd
      unfold getPathItem at hs
      simp only [ne_eq, not_true_eq_false, if_false, hi, Option.some.injEq] at hs
      exact hne hs.symm
    · exact Or.inl hd

/-- Witness of C3: index `0` is not the first component, and index `1` is not the
second. -/
theorem getPathItem_nonneg_witness :
    getPathItem ["music", "Beatles"] 0 "" = some "" ∧
    getPathItem ["music", "Beatles"] 1 "" = some "" :=
  ⟨(getPathItem_nonneg ["music", "Beatles"] 0 (by decide)).1,
   (getPathItem_nonneg ["music", "Beatles"] 1 (by decide)).1⟩

/-- C10. `getPathItem` never indexes out of bounds: for a slice whose length fits in an
`int64` and an `int64` index, whenever the access `pathItems[index]` is reached (empty
override, negative `itemIndex`, `index ≥ 0`) the addition has not overflowed and
`0 ≤ index < len(pathItems)`; the function returns a value in every case. -/
theorem getPathItem_in_bounds (pathItems : List String) (itemIndex : Int)
    (defaultValue : String)
    (hlen : (pathItems.length : Int) < 9223372036854775808) (hidx : isInt64 itemIndex) :
    (defaultValue = "" → itemIndex < 0 →
      pathItemIndex pathItems itemIndex = (pathItems.length : Int) + itemIndex ∧
      (pathItemIndex pathItems itemIndex ≥ 0 →
        0 ≤ (pathItems.length : Int) + itemIndex ∧
        (pathItems.length : Int) + itemIndex < pathItems.length ∧
        (pathItemIndex pathItems itemIndex).toNat < pathItems.length)) ∧
    (∃ s, getPathItem pathItems itemIndex defaultValue = some s) := by
  refine ⟨?_, getPathItem_isSome pathItems itemIndex defaultValue hidx⟩
  intro _ hneg
  have hx := pathItemIndex_exact pathItems itemIndex hlen hidx hneg
  refine ⟨hx, ?_⟩
  intro hnn
  rw [hx] at hnn ⊢
  omega

/-- Witness of C10: the empty slice and the most negative index. -/
theorem getPathItem_in_bounds_witness :
    ∃ s, getPathItem [] (-9223372036854775808) "" = some s :=
  (getPathItem_in_bounds [] (-9223372036854775808) "" (by decide) (by decide)).2

/-! ## Title derivation -/

/-- The title of `track.mp3` is `track`. -/
theorem deriveTitle_track : deriveTitle "track.mp3" = "track" := by decide

/-- C4, at the failing input: the title computed for `temp.mp3` is `te`, not `temp`:
`strings.TrimRight` removes every trailing character that occurs in `.mp3`. -/
theorem deriveTitle_temp :
    stringsHasSuffix "temp.mp3" ".mp3" = true ∧ filepathBase "temp.mp3" = "temp.mp3" ∧
    filepathExt "temp.mp3" = ".mp3" ∧ deriveTitle "temp.mp3" = "te" ∧
    deriveTitle ("temp" ++ ".mp3") ≠ "temp" := by decide

/-! ## Set mode: one file -/

/-- With `int64` index flags, the per-file computation of set mode does not panic. -/
theorem setFileTags_isSome (cfg : Config) (hcfg : cfg.inRange) (dirPath name : String)
    (tag : Tag) : ∃ f, setFileTags cfg dirPath name tag = some f := by
  obtain ⟨hal, hyr, har⟩ := hcfg
  obtain ⟨a, ha⟩ := getPathItem_isSome (stringsSplit dirPath '/') cfg.albumIndex cfg.album hal
  obtain ⟨b, hb⟩ :=
    getPathItem_isSome (stringsSplit dirPath '/') cfg.artistIndex cfg.artist har
  obtain ⟨c, hc⟩ := getPathItem_isSome (stringsSplit dirPath '/') cfg.yearIndex cfg.year hyr
  unfold setFileTags
  simp only [ha, hb, hc]
  exact ⟨_, rfl⟩

/-- C5. Set mode writes a field only when its resolved value is non-empty: for a file
whose name ends in `.mp3` and opens, with any stored tag and any configuration (of
`int64` indices), the tag that set mode saves has the derived title, and its album,
artist and year are the values resolved by `getPathItem` where those are non-empty and
the stored values where they are empty; with `albumIndex = 0` and no album override the
stored album is kept. -/
theorem setTags_frame (cfg : Config) (hcfg : cfg.inRange) (dirPath name : String)
    (tag : Tag) (saveErr : Option GoError) (hmp3 : stringsHasSuffix name ".mp3" = true) :
    ∃ (tag' : Tag) (itemAlbum itemArtist itemYear : String),
      getPathItem (stringsSplit dirPath '/') cfg.albumIndex cfg.album = some itemAlbum ∧
      getPathItem (stringsSplit dirPath '/') cfg.artistIndex cfg.artist = some itemArtist ∧
      getPathItem (stringsSplit dirPath '/') cfg.yearIndex cfg.year = some itemYear ∧
      savedTags (setTagsItem cfg dirPath (.file name none tag saveErr)).1
        = [(filepathJoin dirPath name, tag')] ∧
      tag'.title = deriveTitle name ∧
      (itemAlbum ≠ "" → tag'.album = itemAlbum) ∧ (itemAlbum = "" → tag'.album = tag.album) ∧
      (itemArtist ≠ "" → tag'.artist = itemArtist) ∧
      (itemArtist = "" → tag'.artist = tag.artist) ∧
      (itemYear ≠ "" → tag'.year = itemYear) ∧ (itemYear = "" → tag'.year = tag.year) ∧
      (cfg.albumIndex = 0 → cfg.album = "" → tag'.album = tag.album) := by
  obtain ⟨hal, hyr, har⟩ := hcfg
  obtain ⟨a, ha⟩ := getPathItem_isSome (stringsSplit dirPath '/') cfg.albumIndex cfg.album hal
  obtain ⟨b, hb⟩ :=
    getPathItem_isSome (stringsSplit dirPath '/') cfg.artistIndex cfg.artist har
  obtain ⟨c, hc⟩ := getPathItem_isSome (stringsSplit dirPath '/') cfg.yearIndex cfg.year hyr
  have hf : ∃ f, setFileTags cfg dirPath name tag = some f ∧
      f.tag.title = deriveTitle name ∧
      (a ≠ "" → f.tag.album = a) ∧ (a = "" → f.tag.album = tag.album) ∧
      (b ≠ "" → f.tag.artist = b) ∧ (b = "" → f.tag.artist = tag.artist) ∧
      (c ≠ "" → f.tag.year = c) ∧ (c = "" → f.tag.year = tag.year) := by
    unfold setFileTags
    simp only [ha, hb, hc]
    refine ⟨_, rfl, ?_⟩
    by_cases h1 : a = "" <;> by_cases h2 : b = "" <;> by_cases h3 : c = "" <;>
      simp [h1, h2, h3]
  obtain ⟨f, hfe, ht, ha1, ha2, hb1, hb2, hc1, hc2⟩ := hf
  refine ⟨f.tag, a, b, c, ha, hb, hc, ?_, ht, ha1, ha2, hb1, hb2, hc1, hc2, ?_⟩
  · cases saveErr <;>
      simp [setTagsItem, hmp3, hfe, savedTags, Event.saved?, List.filterMap]
  · intro hi hov
    apply ha2
    have := getPathItem_empty_of_nonneg (stringsSplit dirPath '/') cfg.albumIndex
      (by omega)
    rw [hov] at ha
    rw [ha] at this
    exact Option.some.inj this

/-- Witness of C5: with the default indices and only an artist override, the stored
album is kept. -/
theorem setTags_frame_witness :
    ∃ tag' : Tag,
      savedTags (setTagsItem ⟨"", "", "Beatles", 0, 0, 0⟩ "/music/x"
        (.file "a.mp3" none ⟨"old", "Help!", "nobody", "1965"⟩ (some "disk full"))).1
        = [("/music/x/a.mp3", tag')] ∧
      tag'.title = "a" ∧ tag'.album = "Help!" := by
  obtain ⟨t, a, b, c, -, -, -, hs, ht, -, -, -, -, -, -, h0⟩ :=
    setTags_frame ⟨"", "", "Beatles", 0, 0, 0⟩ (by decide) "/music/x" "a.mp3"
      ⟨"old", "Help!", "nobody", "1965"⟩ (some "disk full") (by decide)
  exact ⟨t, hs, ht, h0 rfl rfl⟩

/-- C6. The end-to-end example: `/music/Beatles/1969/Abbey Road` splits into the five
components `["", "music", "Beatles", "1969", "Abbey Road"]`, and with `albumIndex = -1`,
`artistIndex = -3`, `yearIndex = -2` and no overrides set mode resolves, for the file
`Come Together.mp3`, album `Abbey Road`, year `1969`, artist `Beatles` and title
`Come Together`, whatever tag the file holds. -/
theorem abbey_road_example (tag : Tag) :
    stringsSplit "/music/Beatles/1969/Abbey Road" '/'
      = ["", "music", "Beatles", "1969", "Abbey Road"] ∧
    (stringsSplit "/music/Beatles/1969/Abbey Road" '/').length = 5 ∧
    getPathItem (stringsSplit "/music/Beatles/1969/Abbey Road" '/') (-1) ""
      = some "Abbey Road" ∧
    getPathItem (stringsSplit "/music/Beatles/1969/Abbey Road" '/') (-2) ""
      = some "1969" ∧
    getPathItem (stringsSplit "/music/Beatles/1969/Abbey Road" '/') (-3) ""
      = some "Beatles" ∧
    deriveTitle "Come Together.mp3" = "Come Together" ∧
    setFileTags ⟨"", "", "", -1, -2, -3⟩ "/music/Beatles/1969/Abbey Road"
        "Come Together.mp3" tag
      = some ⟨⟨"Come Together", "Abbey Road", "Beatles", "1969"⟩,
          "Come Together", "Abbey Road", "Beatles", "1969"⟩ ∧
    savedTags (setTagsItem ⟨"", "", "", -1, -2, -3⟩ "/music/Beatles/1969/Abbey Road"
        (.file "Come Together.mp3" none tag none)).1
      = [("/music/Beatles/1969/Abbey Road/Come Together.mp3",
          ⟨"Come Together", "Abbey Road", "Beatles", "1969"⟩)] := by
  refine ⟨by decide, by decide, by decide, by decide, by decide, by decide, ?_, ?_⟩
  · rfl
  · rfl

/-! ## The walk: unfolding the loop -/

/-- An iteration that ends normally is followed by the rest of the loop. -/
theorem setTagsLoop_cons_ok (cfg : Config) (p : String) (e : Entry) (es : List Entry)
    (h : (setTagsItem cfg p e).2 = .ok) :
    setTagsLoop cfg p (e :: es)
      = ((setTagsItem cfg p e).1 ++ (setTagsLoop cfg p es).1, (setTagsLoop cfg p es).2) := by
  simp only [setTagsLoop, h]

/-- An iteration that returns or panics ends the loop. -/
theorem setTagsLoop_cons_stop (cfg : Config) (p : String) (e : Entry) (es : List Entry)
    (h : (setTagsItem cfg p e).2 ≠ .ok) :
    setTagsLoop cfg p (e :: es) = setTagsItem cfg p e := by
  cases h2 : (setTagsItem cfg p e).2 with
  | ok => exact absurd h2 h
  | error err => simp only [setTagsLoop, h2]; rw [← h2]
  | panic => simp only [setTagsLoop, h2]; rw [← h2]

/-- An iteration that ends normally is followed by the rest of the loop. -/
theorem listTagsLoop_cons_ok (p : String) (e : Entry) (es : List Entry)
    (h : (listTagsItem p e).2 = .ok) :
    listTagsLoop p (e :: es)
      = ((listTagsItem p e).1 ++ (listTagsLoop p es).1, (listTagsLoop p es).2) := by
  simp only [listTagsLoop, h]

/-- An iteration that returns ends the loop. -/
theorem listTagsLoop_cons_stop (p : String) (e : Entry) (es : List Entry)
    (h : (listTagsItem p e).2 ≠ .ok) :
    listTagsLoop p (e :: es) = listTagsItem p e := by
  cases h2 : (listTagsItem p e).2 with
  | ok => exact absurd h2 h
  | error err => simp only [listTagsLoop, h2]; rw [← h2]
  | panic => simp only [listTagsLoop, h2]; rw [← h2]

/-- The matching paths of two lists of files, one after the other. -/
theorem mp3Paths_append (xs ys : List (String × String)) :
    mp3Paths (xs ++ ys) = mp3Paths xs ++ mp3Paths ys := by
  simp [mp3Paths]

/-- The files opened by two traces, one after the other. -/
theorem openedFiles_append (xs ys : List Event) :
    openedFiles (xs ++ ys) = openedFiles xs ++ openedFiles ys := by
  simp [openedFiles]

/-- The files saved by two traces, one after the other. -/
theorem savedTags_append (xs ys : List Event) :
    savedTags (xs ++ ys) = savedTags xs ++ savedTags ys := by
  simp [savedTags]

/-! ## The walk on a readable tree -/

mutual
/-- Set mode on a readable directory ends normally, having opened and saved the matching
files under it. -/
theorem setTagsAt_readable (cfg : Config) (hcfg : cfg.inRange) :
    ∀ (d : Dir) (p : String), Dir.readable d = true →
      (setTagsAt cfg p d).2 = .ok ∧
      openedFiles (setTagsAt cfg p d).1 = mp3Paths (Dir.files p d) ∧
      (savedTags (setTagsAt cfg p d).1).map Prod.fst = mp3Paths (Dir.files p d)
  | .mk (some err) list, p, h => by simp [Dir.readable] at h
  | .mk none list, p, h => by
    have ih := setTagsLoop_readable cfg hcfg list p (by simpa [Dir.readable] using h)
    simp only [setTagsAt, Dir.files]
    refine ⟨ih.1, ?_, ?_⟩
    · rw [← ih.2.1]; simp [openedFiles, Event.opened?]
    · rw [← ih.2.2]; simp [savedTags, Event.saved?]
/-- Set mode on a readable listing. -/
theorem setTagsLoop_readable (cfg : Config) (hcfg : cfg.inRange) :
    ∀ (list : List Entry) (p : String), Entry.allReadable list = true →
      (setTagsLoop cfg p list).2 = .ok ∧
      openedFiles (setTagsLoop cfg p list).1 = mp3Paths (Entry.filesOfList p list) ∧
      (savedTags (setTagsLoop cfg p list).1).map Prod.fst
        = mp3Paths (Entry.filesOfList p list)
  | [], p, _ => by
    simp [setTagsLoop, Entry.filesOfList, openedFiles, savedTags, mp3Paths]
  | e :: es, p, h => by
    have h2 : Entry.readable e = true ∧ Entry.allReadable es = true := by
      simpa [Entry.allReadable] using h
    have ih1 := setTagsItem_readable cfg hcfg e p h2.1
    have ih2 := setTagsLoop_readable cfg hcfg es p h2.2
    rw [setTagsLoop_cons_ok cfg p e es ih1.1]
    simp only [Entry.filesOfList, mp3Paths_append, openedFiles_append, savedTags_append,
      List.map_append]
    exact ⟨ih2.1, by rw [ih1.2.1, ih2.2.1], by rw [ih1.2.2, ih2.2.2]⟩
/-- Set mode on a readable entry. -/
theorem setTagsItem_readable (cfg : Config) (hcfg : cfg.inRange) :
    ∀ (e : Entry) (p : String), Entry.readable e = true →
      (setTagsItem cfg p e).2 = .ok ∧
      openedFiles (setTagsItem cfg p e).1 = mp3Paths (Entry.files p e) ∧
      (savedTags (setTagsItem cfg p e).1).map Prod.fst = mp3Paths (Entry.files p e)
  | .dir name d, p, h => by
    have ih := setTagsAt_readable cfg hcfg d (filepathJoin p name)
      (by simpa [Entry.readable] using h)
    simp only [setTagsItem, Entry.files]
    refine ⟨ih.1, ?_, ?_⟩
    · rw [← ih.2.1]; simp [openedFiles, Event.opened?]
    · rw [← ih.2.2]; simp [savedTags, Event.saved?]
  | .file name openErr tag saveErr, p, h => by
    obtain ⟨f, hf⟩ := setFileTags_isSome cfg hcfg p name tag
    by_cases hm : stringsHasSuffix name ".mp3" = true
    · have ho : openErr = none := by simpa [Entry.readable, hm] using h
      subst ho
      cases saveErr <;>
        simp [setTagsItem, hm, hf, Entry.files, mp3Paths, openedFiles, savedTags,
          Event.opened?, Event.saved?]
    · simp [setTagsItem, hm, Entry.files, mp3Paths, openedFiles, savedTags,
        Event.opened?, Event.saved?]
end

mutual
/-- List mode on a readable directory ends normally, having opened the matching files
under it. -/
theorem listTagsAt_readable :
    ∀ (d : Dir) (p : String), Dir.readable d = true →
      (listTagsAt p d).2 = .ok ∧
      openedFiles (listTagsAt p d).1 = mp3Paths (Dir.files p d)
  | .mk (some err) list, p, h => by simp [Dir.readable] at h
  | .mk none list, p, h => by
    have ih := listTagsLoop_readable list p (by simpa [Dir.readable] using h)
    simp only [listTagsAt, Dir.files]
    refine ⟨ih.1, ?_⟩
    rw [← ih.2]; simp [openedFiles, Event.opened?]
/-- List mode on a readable listing. -/
theorem listTagsLoop_readable :
    ∀ (list : List Entry) (p : String), Entry.allReadable list = true →
      (listTagsLoop p list).2 = .ok ∧
      openedFiles (listTagsLoop p list).1 = mp3Paths (Entry.filesOfList p list)
  | [], p, _ => by
    simp [listTagsLoop, Entry.filesOfList, openedFiles, mp3Paths]
  | e :: es, p, h => by
    have h2 : Entry.readable e = true ∧ Entry.allReadable es = true := by
      simpa [Entry.allReadable] using h
    have ih1 := listTagsItem_readable e p h2.1
    have ih2 := listTagsLoop_readable es p h2.2
    rw [listTagsLoop_cons_ok p e es ih1.1]
    simp only [Entry.filesOfList, mp3Paths_append, openedFiles_append]
    exact ⟨ih2.1, by rw [ih1.2, ih2.2]⟩
/-- List mode on a readable entry. -/
theorem listTagsItem_readable :
    ∀ (e : Entry) (p : String), Entry.readable e = true →
      (listTagsItem p e).2 = .ok ∧
      openedFiles (listTagsItem p e).1 = mp3Paths (Entry.files p e)
  | .dir name d, p, h => by
    have ih := listTagsAt_readable d (filepathJoin p name)
      (by simpa [Entry.readable] using h)
    simp only [listTagsItem, Entry.files]
    refine ⟨ih.1, ?_⟩
    rw [← ih.2]; simp [openedFiles, Event.opened?]
  | .file name openErr tag saveErr, p, h => by
    by_cases hm : stringsHasSuffix name ".mp3" = true
    · have ho : openErr = none := by simpa [Entry.readable, hm] using h
      subst ho
      simp [listTagsItem, hm, Entry.files, mp3Paths, openedFiles, Event.opened?]
    · simp [listTagsItem, hm, Entry.files, mp3Paths, openedFiles, Event.opened?]
end

/-- The number of matching paths is the number of matching files. -/
theorem mp3Paths_length (files : List (String × String)) :
    (mp3Paths files).length = files.countP (fun f => stringsHasSuffix f.2 ".mp3") := by
  simp [mp3Paths, List.countP_eq_length_filter]

/-- C7. Walk coverage: on a tree in which every listing and every open succeeds,
`setTagsAt` and `listTagsAt` end normally and the sequence of files each of them opens
(and `setTagsAt` saves) is the sequence of the regular files under the root whose name
ends in `.mp3`, each taken once, in depth-first order, with no other file and no
directory; a tree with `N` matching files yields exactly `N` visits. -/
theorem walk_coverage (cfg : Config) (hcfg : cfg.inRange) (dirPath : String) (d : Dir)
    (h : Dir.readable d = true) :
    (setTagsAt cfg dirPath d).2 = .ok ∧
    openedFiles (setTagsAt cfg dirPath d).1
      = ((Dir.files dirPath d).filter (fun f => stringsHasSuffix f.2 ".mp3")).map
          Prod.fst ∧
    (savedTags (setTagsAt cfg dirPath d).1).map Prod.fst
      = openedFiles (setTagsAt cfg dirPath d).1 ∧
    (openedFiles (setTagsAt cfg dirPath d).1).length
      = (Dir.files dirPath d).countP (fun f => stringsHasSuffix f.2 ".mp3") ∧
    (listTagsAt dirPath d).2 = .ok ∧
    openedFiles (listTagsAt dirPath d).1
      = ((Dir.files dirPath d).filter (fun f => stringsHasSuffix f.2 ".mp3")).map
          Prod.fst ∧
    (openedFiles (listTagsAt dirPath d).1).length
      = (Dir.files dirPath d).countP (fun f => stringsHasSuffix f.2 ".mp3") := by
  have hs := setTagsAt_readable cfg hcfg d dirPath h
  have hl := listTagsAt_readable d dirPath h
  refine ⟨hs.1, hs.2.1, ?_, ?_, hl.1, hl.2, ?_⟩
  · rw [hs.2.1, hs.2.2]
  · rw [hs.2.1, mp3Paths_length]
  · rw [hl.2, mp3Paths_length]

/-- Witness of C7: the example tree has two matching files at the top and one in the
directory `live.mp3`, next to a file that does not match; the directory is walked, not
opened. -/
theorem walk_coverage_witness :
    (setTagsAt exampleConfig "/m/x/y" exampleTree).2 = .ok ∧
    openedFiles (setTagsAt exampleConfig "/m/x/y" exampleTree).1
      = ["/m/x/y/a.mp3", "/m/x/y/live.mp3/b.mp3", "/m/x/y/z.mp3"] ∧
    openedFiles (listTagsAt "/m/x/y" exampleTree).1
      = ["/m/x/y/a.mp3", "/m/x/y/live.mp3/b.mp3", "/m/x/y/z.mp3"] := by
  have h := walk_coverage exampleConfig (by decide) "/m/x/y" exampleTree (by decide)
  exact ⟨h.1, h.2.1, h.2.2.2.2.2.1⟩

/-! ## Save failures -/

mutual
/-- Set mode ends the same way whether saves fail or not, and its trace without the
reports of failed saves is the trace of the walk in which every save succeeds. -/
theorem setTagsAt_savesOk (cfg : Config) :
    ∀ (d : Dir) (p : String),
      (setTagsAt cfg p (Dir.savesOk d)).2 = (setTagsAt cfg p d).2 ∧
      (setTagsAt cfg p (Dir.savesOk d)).1
        = (setTagsAt cfg p d).1.filter (fun e => !Event.isSaveFailure e)
  | .mk (some err) list, p => by
    simp [setTagsAt, Dir.savesOk, Event.isSaveFailure]
  | .mk none list, p => by
    have ih := setTagsLoop_savesOk cfg list p
    simp [setTagsAt, Dir.savesOk, Event.isSaveFailure, ih.1, ih.2]
/-- The loop of set mode, with and without failing saves. -/
theorem setTagsLoop_savesOk (cfg : Config) :
    ∀ (list : List Entry) (p : String),
      (setTagsLoop cfg p (Entry.savesOkList list)).2 = (setTagsLoop cfg p list).2 ∧
      (setTagsLoop cfg p (Entry.savesOkList list)).1
        = (setTagsLoop cfg p list).1.filter (fun e => !Event.isSaveFailure e)
  | [], p => by simp [setTagsLoop, Entry.savesOkList]
  | e :: es, p => by
    have ih1 := setTagsItem_savesOk cfg e p
    have ih2 := setTagsLoop_savesOk cfg es p
    by_cases hok : (setTagsItem cfg p e).2 = .ok
    · rw [Entry.savesOkList, setTagsLoop_cons_ok cfg p e es hok,
        setTagsLoop_cons_ok cfg p _ _ (ih1.1.trans hok)]
      simp [ih1.2, ih2.1, ih2.2]
    · rw [Entry.savesOkList, setTagsLoop_cons_stop cfg p e es hok,
        setTagsLoop_cons_stop cfg p _ _ (by rw [ih1.1]; exact hok)]
      exact ih1
/-- One iteration of set mode, with and without a failing save. -/
theorem setTagsItem_savesOk (cfg : Config) :
    ∀ (e : Entry) (p : String),
      (setTagsItem cfg p (Entry.savesOk e)).2 = (setTagsItem cfg p e).2 ∧
      (setTagsItem cfg p (Entry.savesOk e)).1
        = (setTagsItem cfg p e).1.filter (fun e => !Event.isSaveFailure e)
  | .dir name d, p => by
    have ih := setTagsAt_savesOk cfg d (filepathJoin p name)
    simp [setTagsItem, Entry.savesOk, Event.isSaveFailure, ih.1, ih.2]
  | .file name openErr tag saveErr, p => by
    by_cases hm : stringsHasSuffix name ".mp3" = true
    · cases openErr with
      | some err => simp [setTagsItem, Entry.savesOk, hm, Event.isSaveFailure]
      | none =>
        cases hf : setFileTags cfg p name tag with
        | none => simp [setTagsItem, Entry.savesOk, hm, hf, Event.isSaveFailure]
        | some f =>
          cases saveErr <;>
            simp [setTagsItem, Entry.savesOk, hm, hf, Event.isSaveFailure]
    · simp [setTagsItem, Entry.savesOk, hm, Event.isSaveFailure]
end

/-- Dropping the reports of failed saves from a trace drops no open. -/
theorem openedFiles_filter (t : List Event) :
    openedFiles (t.filter (fun e => !Event.isSaveFailure e)) = openedFiles t := by
  induction t with
  | nil => rfl
  | cons e es ih =>
    cases e <;> simp_all [openedFiles, List.filter, Event.isSaveFailure, Event.opened?]

/-- Dropping the reports of failed saves from a trace drops no save. -/
theorem savedTags_filter (t : List Event) :
    savedTags (t.filter (fun e => !Event.isSaveFailure e)) = savedTags t := by
  induction t with
  | nil => rfl
  | cons e es ih =>
    cases e <;> simp_all [savedTags, List.filter, Event.isSaveFailure, Event.saved?]

/-- C8. Save failure is non-fatal in set mode: on a tree in which every listing and
every open succeeds, whatever the outcomes of the saves, `setTagsAt` returns no error,
opens every matching file, and opens and saves exactly the same sequence of files (with
the same tags) as the walk in which every save succeeds; the two traces differ only by
the reports of the failed saves. -/
theorem save_failure_nonfatal (cfg : Config) (hcfg : cfg.inRange) (dirPath : String)
    (d : Dir) (h : Dir.readable d = true) :
    (setTagsAt cfg dirPath d).2 = .ok ∧
    (setTagsAt cfg dirPath (Dir.savesOk d)).2 = .ok ∧
    openedFiles (setTagsAt cfg dirPath d).1
      = openedFiles (setTagsAt cfg dirPath (Dir.savesOk d)).1 ∧
    savedTags (setTagsAt cfg dirPath d).1
      = savedTags (setTagsAt cfg dirPath (Dir.savesOk d)).1 ∧
    (setTagsAt cfg dirPath d).1.filter (fun e => !Event.isSaveFailure e)
      = (setTagsAt cfg dirPath (Dir.savesOk d)).1 ∧
    openedFiles (setTagsAt cfg dirPath d).1
      = ((Dir.files dirPath d).filter (fun f => stringsHasSuffix f.2 ".mp3")).map
          Prod.fst := by
  have hs := setTagsAt_readable cfg hcfg d dirPath h
  have hk := setTagsAt_savesOk cfg d dirPath
  refine ⟨hs.1, hk.1.trans hs.1, ?_, ?_, hk.2.symm, hs.2.1⟩
  · rw [hk.2, openedFiles_filter]
  · rw [hk.2, savedTags_filter]

/-- Witness of C8: in the example tree the save of `live.mp3/b.mp3` fails, it is
reported, and `z.mp3`, which comes after it, is still opened. -/
theorem save_failure_nonfatal_witness :
    (setTagsAt exampleConfig "/m/x/y" exampleTree).2 = .ok ∧
    openedFiles (setTagsAt exampleConfig "/m/x/y" exampleTree).1
      = openedFiles (setTagsAt exampleConfig "/m/x/y" (Dir.savesOk exampleTree)).1 ∧
    Event.logSaveFailed "b" "live.mp3" "x" "y" "/m/x/y/live.mp3/b.mp3" "disk full"
      ∈ (setTagsAt exampleConfig "/m/x/y" exampleTree).1 := by
  have h := save_failure_nonfatal exampleConfig (by decide) "/m/x/y" exampleTree
    (by decide)
  exact ⟨h.1, h.2.2.1, by decide⟩

/-! ## Failures of listings and opens -/

/-- The trace of the loop begins with the trace of its first iteration. -/
theorem setTagsItem_begins (cfg : Config) (p : String) (e : Entry) (es : List Entry) :
    (setTagsItem cfg p e).1 <+: (setTagsLoop cfg p (e :: es)).1 := by
  by_cases hok : (setTagsItem cfg p e).2 = .ok
  · rw [setTagsLoop_cons_ok cfg p e es hok]
    exact List.prefix_append _ _
  · rw [setTagsLoop_cons_stop cfg p e es hok]

/-- The trace of the loop begins with the trace of its first iteration. -/
theorem listTagsItem_begins (p : String) (e : Entry) (es : List Entry) :
    (listTagsItem p e).1 <+: (listTagsLoop p (e :: es)).1 := by
  by_cases hok : (listTagsItem p e).2 = .ok
  · rw [listTagsLoop_cons_ok p e es hok]
    exact List.prefix_append _ _
  · rw [listTagsLoop_cons_stop p e es hok]

mutual
/-- A healed directory is readable. -/
theorem healDir_readable : ∀ d : Dir, Dir.readable (Dir.heal d) = true
  | .mk _ list => by
    simp [Dir.heal, Dir.readable, healList_readable list]
/-- A healed listing is readable. -/
theorem healList_readable :
    ∀ list : List Entry, Entry.allReadable (Entry.healList list) = true
  | [] => by simp [Entry.healList, Entry.allReadable]
  | e :: es => by
    simp [Entry.healList, Entry.allReadable, healEntry_readable e,
      healList_readable es]
/-- A healed entry is readable. -/
theorem healEntry_readable : ∀ e : Entry, Entry.readable (Entry.heal e) = true
  | .dir _ d => by simp [Entry.heal, Entry.readable, healDir_readable d]
  | .file _ _ _ _ => by simp [Entry.heal, Entry.readable]
end

mutual
/-- Set mode ends normally only on a readable directory. -/
theorem setTagsAt_ok_readable (cfg : Config) :
    ∀ (d : Dir) (p : String), (setTagsAt cfg p d).2 = .ok → Dir.readable d = true
  | .mk (some err) list, p, h => by simp [setTagsAt] at h
  | .mk none list, p, h => by
    have ih := setTagsLoop_ok_readable cfg list p (by simpa [setTagsAt] using h)
    simp [Dir.readable, ih]
/-- The loop of set mode ends normally only on a readable listing. -/
theorem setTagsLoop_ok_readable (cfg : Config) :
    ∀ (list : List Entry) (p : String),
      (setTagsLoop cfg p list).2 = .ok → Entry.allReadable list = true
  | [], _, _ => by simp [Entry.allReadable]
  | e :: es, p, h => by
    by_cases hok : (setTagsItem cfg p e).2 = .ok
    · rw [setTagsLoop_cons_ok cfg p e es hok] at h
      simp [Entry.allReadable, setTagsItem_ok_readable cfg e p hok,
        setTagsLoop_ok_readable cfg es p h]
    · rw [setTagsLoop_cons_stop cfg p e es hok] at h
      exact absurd h hok
/-- An iteration of set mode ends normally only on a readable entry. -/
theorem setTagsItem_ok_readable (cfg : Config) :
    ∀ (e : Entry) (p : String), (setTagsItem cfg p e).2 = .ok → Entry.readable e = true
  | .dir name d, p, h => by
    have ih := setTagsAt_ok_readable cfg d (filepathJoin p name)
      (by simpa [setTagsItem] using h)
    simp [Entry.readable, ih]
  | .file name openErr tag saveErr, p, h => by
    by_cases hm : stringsHasSuffix name ".mp3" = true
    · cases openErr with
      | some err => simp [setTagsItem, hm] at h
      | none => simp [Entry.readable]
    · simp [Entry.readable, hm]
end

mutual
/-- List mode ends normally only on a readable directory. -/
theorem listTagsAt_ok_readable :
    ∀ (d : Dir) (p : String), (listTagsAt p d).2 = .ok → Dir.readable d = true
  | .mk (some err) list, p, h => by simp [listTagsAt] at h
  | .mk none list, p, h => by
    have ih := listTagsLoop_ok_readable list p (by simpa [listTagsAt] using h)
    simp [Dir.readable, ih]
/-- The loop of list mode ends normally only on a readable listing. -/
theorem listTagsLoop_ok_readable :
    ∀ (list : List Entry) (p : String),
      (listTagsLoop p list).2 = .ok → Entry.allReadable list = true
  | [], _, _ => by simp [Entry.allReadable]
  | e :: es, p, h => by
    by_cases hok : (listTagsItem p e).2 = .ok
    · rw [listTagsLoop_cons_ok p e es hok] at h
      simp [Entry.allReadable, listTagsItem_ok_readable e p hok,
        listTagsLoop_ok_readable es p h]
    · rw [listTagsLoop_cons_stop p e es hok] at h
      exact absurd h hok
/-- An iteration of list mode ends normally only on a readable entry. -/
theorem listTagsItem_ok_readable :
    ∀ (e : Entry) (p : String), (listTagsItem p e).2 = .ok → Entry.readable e = true
  | .dir name d, p, h => by
    have ih := listTagsAt_ok_readable d (filepathJoin p name)
      (by simpa [listTagsItem] using h)
    simp [Entry.readable, ih]
  | .file name openErr tag saveErr, p, h => by
    by_cases hm : stringsHasSuffix name ".mp3" = true
    · cases openErr with
      | some err => simp [listTagsItem, hm] at h
      | none => simp [Entry.readable]
    · simp [Entry.readable, hm]
end

mutual
/-- With `int64` index flags, set mode does not panic. -/
theorem setTagsAt_no_panic (cfg : Config) (hcfg : cfg.inRange) :
    ∀ (d : Dir) (p : String), (setTagsAt cfg p d).2 ≠ .panic
  | .mk (some err) list, p => by simp [setTagsAt]
  | .mk none list, p => by
    simpa [setTagsAt] using setTagsLoop_no_panic cfg hcfg list p
/-- With `int64` index flags, the loop of set mode does not panic. -/
theorem setTagsLoop_no_panic (cfg : Config) (hcfg : cfg.inRange) :
    ∀ (list : List Entry) (p : String), (setTagsLoop cfg p list).2 ≠ .panic
  | [], _ => by simp [setTagsLoop]
  | e :: es, p => by
    by_cases hok : (setTagsItem cfg p e).2 = .ok
    · rw [setTagsLoop_cons_ok cfg p e es hok]
      exact setTagsLoop_no_panic cfg hcfg es p
    · rw [setTagsLoop_cons_stop cfg p e es hok]
      exact setTagsItem_no_panic cfg hcfg e p
/-- With `int64` index flags, an iteration of set mode does not panic. -/
theorem setTagsItem_no_panic (cfg : Config) (hcfg : cfg.inRange) :
    ∀ (e : Entry) (p : String), (setTagsItem cfg p e).2 ≠ .panic
  | .dir name d, p => by
    simpa [setTagsItem] using setTagsAt_no_panic cfg hcfg d (filepathJoin p name)
  | .file name openErr tag saveErr, p => by
    obtain ⟨f, hf⟩ := setFileTags_isSome cfg hcfg p name tag
    by_cases hm : stringsHasSuffix name ".mp3" = true
    · cases openErr <;> cases saveErr <;> simp [setTagsItem, hm, hf]
    · simp [setTagsItem, hm]
end

mutual
/-- List mode does not panic. -/
theorem listTagsAt_no_panic :
    ∀ (d : Dir) (p : String), (listTagsAt p d).2 ≠ .panic
  | .mk (some err) list, p => by simp [listTagsAt]
  | .mk none list, p => by
    simpa [listTagsAt] using listTagsLoop_no_panic list p
/-- The loop of list mode does not panic. -/
theorem listTagsLoop_no_panic :
    ∀ (list : List Entry) (p : String), (listTagsLoop p list).2 ≠ .panic
  | [], _ => by simp [listTagsLoop]
  | e :: es, p => by
    by_cases hok : (listTagsItem p e).2 = .ok
    · rw [listTagsLoop_cons_ok p e es hok]
      exact listTagsLoop_no_panic es p
    · rw [listTagsLoop_cons_stop p e es hok]
      exact listTagsItem_no_panic e p
/-- An iteration of list mode does not panic. -/
theorem listTagsItem_no_panic :
    ∀ (e : Entry) (p : String), (listTagsItem p e).2 ≠ .panic
  | .dir name d, p => by
    simpa [listTagsItem] using listTagsAt_no_panic d (filepathJoin p name)
  | .file name openErr tag saveErr, p => by
    by_cases hm : stringsHasSuffix name ".mp3" = true
    · cases openErr <;> simp [listTagsItem, hm]
    · simp [listTagsItem, hm]
end

/-- A failure inside a call is a failure of the enclosing call, whose trace has one more
event in front. -/
theorem endsInFailure_cons (err : GoError) (ev : Event) (trace full : List Event)
    (h : endsInFailure err trace full) : endsInFailure err (ev :: trace) (ev :: full) := by
  obtain ⟨pre, a, l, hfp, htr, hpre⟩ := h
  refine ⟨ev :: pre, a, l, hfp, by simp [htr], ?_⟩
  obtain ⟨t, ht⟩ := hpre
  exact ⟨t, by simp [← ht]⟩

/-- A failure in the rest of a loop is a failure of the loop. -/
theorem endsInFailure_append (err : GoError) (t1 trace full : List Event)
    (h : endsInFailure err trace full) : endsInFailure err (t1 ++ trace) (t1 ++ full) := by
  obtain ⟨pre, a, l, hfp, htr, hpre⟩ := h
  refine ⟨t1 ++ pre, a, l, hfp, by simp [htr], ?_⟩
  obtain ⟨t, ht⟩ := hpre
  exact ⟨t, by simp [← ht]⟩

/-- A failure stays a failure when the full trace is extended. -/
theorem endsInFailure_mono (err : GoError) (trace full full' : List Event)
    (h : endsInFailure err trace full) (hp : full <+: full') :
    endsInFailure err trace full' := by
  obtain ⟨pre, a, l, hfp, htr, hpre⟩ := h
  exact ⟨pre, a, l, hfp, htr, hpre.trans hp⟩

mutual
/-- Set mode and the healed tree: a walk that ends normally is the walk of the healed
tree, a walk that returns an error stopped at a failed operation of that walk. -/
theorem setTagsAt_heal (cfg : Config) :
    ∀ (d : Dir) (p : String),
      ((setTagsAt cfg p d).2 = .ok → setTagsAt cfg p (Dir.heal d) = setTagsAt cfg p d) ∧
      (∀ err, (setTagsAt cfg p d).2 = .error err →
        endsInFailure err (setTagsAt cfg p d).1 (setTagsAt cfg p (Dir.heal d)).1)
  | .mk (some e0) list, p => by
    constructor
    · intro h; simp [setTagsAt] at h
    · intro err h
      have he : e0 = err := by simpa [setTagsAt] using h
      subst he
      refine ⟨[], .readDir p, .logListFailed e0, Or.inl ⟨p, rfl, rfl⟩, ?_, ?_⟩
      · simp [setTagsAt]
      · exact ⟨(setTagsLoop cfg p (Entry.healList list)).1, by simp [setTagsAt, Dir.heal]⟩
  | .mk none list, p => by
    have ih := setTagsLoop_heal cfg list p
    constructor
    · intro h
      have h2 : (setTagsLoop cfg p list).2 = .ok := by simpa [setTagsAt] using h
      simp [setTagsAt, Dir.heal, ih.1 h2]
    · intro err h
      have h2 : (setTagsLoop cfg p list).2 = .error err := by simpa [setTagsAt] using h
      have := endsInFailure_cons err (.readDir p) _ _ (ih.2 err h2)
      simpa [setTagsAt, Dir.heal] using this
/-- The loop of set mode and the healed listing. -/
theorem setTagsLoop_heal (cfg : Config) :
    ∀ (list : List Entry) (p : String),
      ((setTagsLoop cfg p list).2 = .ok →
        setTagsLoop cfg p (Entry.healList list) = setTagsLoop cfg p list) ∧
      (∀ err, (setTagsLoop cfg p list).2 = .error err →
        endsInFailure err (setTagsLoop cfg p list).1
          (setTagsLoop cfg p (Entry.healList list)).1)
  | [], p => by simp [setTagsLoop, Entry.healList]
  | e :: es, p => by
    have ih1 := setTagsItem_heal cfg e p
    have ih2 := setTagsLoop_heal cfg es p
    by_cases hok : (setTagsItem cfg p e).2 = .ok
    · have hh := ih1.1 hok
      have hok' : (setTagsItem cfg p (Entry.heal e)).2 = .ok := by rw [hh]; exact hok
      rw [Entry.healList, setTagsLoop_cons_ok cfg p e es hok,
        setTagsLoop_cons_ok cfg p _ _ hok', hh]
      constructor
      · intro h
        rw [ih2.1 h]
      · intro err h
        exact endsInFailure_append err _ _ _ (ih2.2 err h)
    · rw [setTagsLoop_cons_stop cfg p e es hok]
      constructor
      · intro h; exact absurd h hok
      · intro err h
        exact endsInFailure_mono err _ _ _ (ih1.2 err h)
          (setTagsItem_begins cfg p (Entry.heal e) (Entry.healList es))
/-- One iteration of set mode and the healed entry. -/
theorem setTagsItem_heal (cfg : Config) :
    ∀ (e : Entry) (p : String),
      ((setTagsItem cfg p e).2 = .ok →
        setTagsItem cfg p (Entry.heal e) = setTagsItem cfg p e) ∧
      (∀ err, (setTagsItem cfg p e).2 = .error err →
        endsInFailure err (setTagsItem cfg p e).1 (setTagsItem cfg p (Entry.heal e)).1)
  | .dir name d, p => by
    have ih := setTagsAt_heal cfg d (filepathJoin p name)
    constructor
    · intro h
      have h2 : (setTagsAt cfg (filepathJoin p name) d).2 = .ok := by
        simpa [setTagsItem] using h
      simp [setTagsItem, Entry.heal, ih.1 h2]
    · intro err h
      have h2 : (setTagsAt cfg (filepathJoin p name) d).2 = .error err := by
        simpa [setTagsItem] using h
      have := endsInFailure_cons err (.logFindItem name) _ _ (ih.2 err h2)
      simpa [setTagsItem, Entry.heal] using this
  | .file name openErr tag saveErr, p => by
    by_cases hm : stringsHasSuffix name ".mp3" = true
    · cases openErr with
      | none => exact ⟨fun _ => by simp [Entry.heal], fun err h => by
          cases hf : setFileTags cfg p name tag <;> cases saveErr <;>
            simp [setTagsItem, hm, hf] at h⟩
      | some e0 =>
        constructor
        · intro h; simp [setTagsItem, hm] at h
        · intro err h
          have he : e0 = err := by simpa [setTagsItem, hm] using h
          subst he
          refine ⟨[.logFindItem name], .openTag (filepathJoin p name),
            .logOpenFailed (filepathJoin p name) e0,
            Or.inr ⟨filepathJoin p name, rfl, rfl⟩, by simp [setTagsItem, hm], ?_⟩
          cases hf : setFileTags cfg p name tag <;> cases saveErr <;>
            simp [setTagsItem, Entry.heal, hm, hf]
    · exact ⟨fun _ => by simp [setTagsItem, Entry.heal, hm], fun err h => by
        simp [setTagsItem, hm] at h⟩
end

mutual
/-- List mode and the healed tree: a walk that ends normally is the walk of the healed
tree, a walk that returns an error stopped at a failed operation of that walk. -/
theorem listTagsAt_heal :
    ∀ (d : Dir) (p : String),
      ((listTagsAt p d).2 = .ok → listTagsAt p (Dir.heal d) = listTagsAt p d) ∧
      (∀ err, (listTagsAt p d).2 = .error err →
        endsInFailure err (listTagsAt p d).1 (listTagsAt p (Dir.heal d)).1)
  | .mk (some e0) list, p => by
    constructor
    · intro h; simp [listTagsAt] at h
    · intro err h
      have he : e0 = err := by simpa [listTagsAt] using h
      subst he
      refine ⟨[], .readDir p, .logListFailed e0, Or.inl ⟨p, rfl, rfl⟩, ?_, ?_⟩
      · simp [listTagsAt]
      · exact ⟨(listTagsLoop p (Entry.healList list)).1, by simp [listTagsAt, Dir.heal]⟩
  | .mk none list, p => by
    have ih := listTagsLoop_heal list p
    constructor
    · intro h
      have h2 : (listTagsLoop p list).2 = .ok := by simpa [listTagsAt] using h
      simp [listTagsAt, Dir.heal, ih.1 h2]
    · intro err h
      have h2 : (listTagsLoop p list).2 = .error err := by simpa [listTagsAt] using h
      have := endsInFailure_cons err (.readDir p) _ _ (ih.2 err h2)
      simpa [listTagsAt, Dir.heal] using this
/-- The loop of list mode and the healed listing. -/
theorem listTagsLoop_heal :
    ∀ (list : List Entry) (p : String),
      ((listTagsLoop p list).2 = .ok →
        listTagsLoop p (Entry.healList list) = listTagsLoop p list) ∧
      (∀ err, (listTagsLoop p list).2 = .error err →
        endsInFailure err (listTagsLoop p list).1
          (listTagsLoop p (Entry.healList list)).1)
  | [], p => by simp [listTagsLoop, Entry.healList]
  | e :: es, p => by
    have ih1 := listTagsItem_heal e p
    have ih2 := listTagsLoop_heal es p
    by_cases hok : (listTagsItem p e).2 = .ok
    · have hh := ih1.1 hok
      have hok' : (listTagsItem p (Entry.heal e)).2 = .ok := by rw [hh]; exact hok
      rw [Entry.healList, listTagsLoop_cons_ok p e es hok,
        listTagsLoop_cons_ok p _ _ hok', hh]
      constructor
      · intro h
        rw [ih2.1 h]
      · intro err h
        exact endsInFailure_append err _ _ _ (ih2.2 err h)
    · rw [listTagsLoop_cons_stop p e es hok]
      constructor
      · intro h; exact absurd h hok
      · intro err h
        exact endsInFailure_mono err _ _ _ (ih1.2 err h)
          (listTagsItem_begins p (Entry.heal e) (Entry.healList es))
/-- One iteration of list mode and the healed entry. -/
theorem listTagsItem_heal :
    ∀ (e : Entry) (p : String),
      ((listTagsItem p e).2 = .ok → listTagsItem p (Entry.heal e) = listTagsItem p e) ∧
      (∀ err, (listTagsItem p e).2 = .error err →
        endsInFailure err (listTagsItem p e).1 (listTagsItem p (Entry.heal e)).1)
  | .dir name d, p => by
    have ih := listTagsAt_heal d (filepathJoin p name)
    constructor
    · intro h
      have h2 : (listTagsAt (filepathJoin p name) d).2 = .ok := by
        simpa [listTagsItem] using h
      simp [listTagsItem, Entry.heal, ih.1 h2]
    · intro err h
      have h2 : (listTagsAt (filepathJoin p name) d).2 = .error err := by
        simpa [listTagsItem] using h
      have := endsInFailure_cons err (.logFindItem name) _ _ (ih.2 err h2)
      simpa [listTagsItem, Entry.heal] using this
  | .file name openErr tag saveErr, p => by
    by_cases hm : stringsHasSuffix name ".mp3" = true
    · cases openErr with
      | none => exact ⟨fun _ => by simp [Entry.heal], fun err h => by
          simp [listTagsItem, hm] at h⟩
      | some e0 =>
        constructor
        · intro h; simp [listTagsItem, hm] at h
        · intro err h
          have he : e0 = err := by simpa [listTagsItem, hm] using h
          subst he
          refine ⟨[.logFindItem name], .openTag (filepathJoin p name),
            .logOpenFailed (filepathJoin p name) e0,
            Or.inr ⟨filepathJoin p name, rfl, rfl⟩, by simp [listTagsItem, hm], ?_⟩
          simp [listTagsItem, Entry.heal, hm]
    · exact ⟨fun _ => by simp [listTagsItem, Entry.heal, hm], fun err h => by
        simp [listTagsItem, hm] at h⟩
end

/-- C9. Fail-fast on fatal errors: on a tree in which some directory listing or some open
of a matching file fails, `setTagsAt` and `listTagsAt` return an error; it is the error
of the failed operation, returned unchanged by every enclosing call; the trace of the
walk ends with the failed operation and its report; and up to the failed operation the
trace is the beginning of the traversal of the same tree with every listing and open
succeeding, so that nothing that comes after the failure point in traversal order is
listed, opened or processed. -/
theorem fail_fast (cfg : Config) (hcfg : cfg.inRange) (dirPath : String) (d : Dir)
    (h : Dir.readable d = false) :
    (∃ err pre attempt report,
      (setTagsAt cfg dirPath d).2 = .error err ∧
      failurePair err attempt report ∧
      (setTagsAt cfg dirPath d).1 = pre ++ [attempt, report] ∧
      pre ++ [attempt] <+: (setTagsAt cfg dirPath (Dir.heal d)).1) ∧
    (∃ err pre attempt report,
      (listTagsAt dirPath d).2 = .error err ∧
      failurePair err attempt report ∧
      (listTagsAt dirPath d).1 = pre ++ [attempt, report] ∧
      pre ++ [attempt] <+: (listTagsAt dirPath (Dir.heal d)).1) ∧
    Dir.readable (Dir.heal d) = true := by
  refine ⟨?_, ?_, healDir_readable d⟩
  · cases hr : (setTagsAt cfg dirPath d).2 with
    | ok =>
      have := setTagsAt_ok_readable cfg d dirPath hr
      rw [h] at this
      exact absurd this (by decide)
    | panic => exact absurd hr (setTagsAt_no_panic cfg hcfg d dirPath)
    | error err =>
      obtain ⟨pre, a, l, hfp, htr, hpre⟩ := (setTagsAt_heal cfg d dirPath).2 err hr
      exact ⟨err, pre, a, l, rfl, hfp, htr, hpre⟩
  · cases hr : (listTagsAt dirPath d).2 with
    | ok =>
      have := listTagsAt_ok_readable d dirPath hr
      rw [h] at this
      exact absurd this (by decide)
    | panic => exact absurd hr (listTagsAt_no_panic d dirPath)
    | error err =>
      obtain ⟨pre, a, l, hfp, htr, hpre⟩ := (listTagsAt_heal d dirPath).2 err hr
      exact ⟨err, pre, a, l, rfl, hfp, htr, hpre⟩

/-- Witness of C9: in the broken tree the listing of `sub/deep` fails; the walk returns
its error, and neither `sub/b.mp3` nor `z.mp3`, which come after it, is opened. -/
theorem fail_fast_witness :
    (∃ err pre attempt report,
      (setTagsAt exampleConfig "/m/x/y" brokenTree).2 = .error err ∧
      failurePair err attempt report ∧
      (setTagsAt exampleConfig "/m/x/y" brokenTree).1 = pre ++ [attempt, report] ∧
      pre ++ [attempt] <+: (setTagsAt exampleConfig "/m/x/y" (Dir.heal brokenTree)).1) ∧
    (setTagsAt exampleConfig "/m/x/y" brokenTree).2 = .error "permission denied" ∧
    openedFiles (setTagsAt exampleConfig "/m/x/y" brokenTree).1 = ["/m/x/y/a.mp3"] ∧
    openedFiles (setTagsAt exampleConfig "/m/x/y" (Dir.heal brokenTree)).1
      = ["/m/x/y/a.mp3", "/m/x/y/sub/deep/x.mp3", "/m/x/y/sub/b.mp3", "/m/x/y/z.mp3"] :=
  ⟨(fail_fast exampleConfig (by decide) "/m/x/y" brokenTree (by decide)).1,
    by decide, by decide, by decide⟩

end AudioHelper
